import Mathlib

/-!
Shallow embedding of the `simplecounter-contract` Solana program
(`src/instruction.rs`, `src/state.rs`, `src/processor.rs`) and proofs of the
specification's claims about it.

Modelling conventions:
* Bytes are `Nat` values; byte regions are `List Nat` (hypotheses `b < 256`
  state byte validity where a theorem needs it).
* `u64` values are `Nat` with explicit `2 ^ 64` bounds where overflow matters.
* `Pubkey` is an opaque identity, modelled as `Nat`.
* Fallible Rust code returning `Result<_, ProgramError>` becomes `Except`.
* Account mutation is modelled by returning the updated account list on
  success; an `Except.error` result carries no updated state, mirroring the
  source, where the write-back `serialize` call happens only after every
  check has passed, and the host's all-or-nothing effect visibility.
-/

namespace SimpleCounter

/-- Little-endian interpretation of a byte region, least significant byte
first: the meaning of `u64::from_le_bytes` on the embedded byte lists. -/
def leValue : List Nat → Nat
  | [] => 0
  | b :: bs => b % 256 + 256 * leValue bs

/-- Little-endian encoding of `n` into exactly `len` bytes: the meaning of
`u64::to_le_bytes` (with `len = 8`) on the embedded byte lists. -/
def leBytes (n : Nat) : Nat → List Nat
  | 0 => []
  | len + 1 => n % 256 :: leBytes (n / 256) len

theorem leBytes_length (n len : Nat) : (leBytes n len).length = len := by
  induction len generalizing n with
  | zero => rfl
  | succ len ih => simpa [leBytes] using ih (n / 256)

theorem leValue_lt (bs : List Nat) : leValue bs < 256 ^ bs.length := by
  induction bs with
  | nil => simp [leValue]
  | cons b bs ih =>
      have hb : b % 256 < 256 := Nat.mod_lt _ (by omega)
      have hmul : 256 * (leValue bs + 1) ≤ 256 * 256 ^ bs.length :=
        Nat.mul_le_mul_left 256 ih
      have hp : 256 ^ (b :: bs).length = 256 ^ bs.length * 256 := by
        simp [pow_succ]
      show b % 256 + 256 * leValue bs < 256 ^ (b :: bs).length
      omega

theorem leValue_leBytes (n len : Nat) : leValue (leBytes n len) = n % 256 ^ len := by
  induction len generalizing n with
  | zero => simp [leBytes, leValue, Nat.mod_one]
  | succ len ih =>
      have h1 : n / 256 % 256 ^ len = n % (256 * 256 ^ len) / 256 :=
        (Nat.mod_mul_right_div_self n 256 (256 ^ len)).symm
      have h2 : n % (256 * 256 ^ len) % 256 = n % 256 :=
        Nat.mod_mod_of_dvd n (dvd_mul_right 256 (256 ^ len))
      have h3 : n % 256 ^ (len + 1) = n % (256 * 256 ^ len) := by
        rw [pow_succ, mul_comm]
      have h4 : n % (256 * 256 ^ len) % 256 + 256 * (n % (256 * 256 ^ len) / 256) =
          n % (256 * 256 ^ len) := Nat.mod_add_div _ 256
      show n % 256 % 256 + 256 * leValue (leBytes (n / 256) len) = n % 256 ^ (len + 1)
      rw [ih, h1, h3]
      omega

theorem leBytes_leValue : ∀ bs : List Nat, (∀ b ∈ bs, b < 256) →
    leBytes (leValue bs) bs.length = bs
  | [], _ => rfl
  | b :: bs, h => by
      have hb : b < 256 := h b (List.mem_cons_self b bs)
      have ih := leBytes_leValue bs (fun x hx => h x (List.mem_cons_of_mem b hx))
      show (b % 256 + 256 * leValue bs) % 256 ::
          leBytes ((b % 256 + 256 * leValue bs) / 256) bs.length = b :: bs
      have h1 : (b % 256 + 256 * leValue bs) % 256 = b := by omega
      have h2 : (b % 256 + 256 * leValue bs) / 256 = leValue bs := by omega
      rw [h1, h2, ih]

theorem pow256_eight : 256 ^ 8 = 2 ^ 64 := by norm_num

/-- The `solana_program::program_error::ProgramError` values this program can
produce. `borshIoError` stands for `ProgramError::BorshIoError(_)`, the image
of every borsh `std::io::Error` under `From<std::io::Error>`; the carried
message string is not modelled, so every borsh decode/encode failure maps to
this single constructor, exactly as all of them share the one variant in the
source. `missingRequiredSignature` is the error the external system program
reports when a required signature is absent. -/
inductive ProgramError where
  | invalidInstructionData
  | notEnoughAccountKeys
  | incorrectProgramId
  | invalidAccountData
  | borshIoError
  | missingRequiredSignature
deriving DecidableEq, Repr

/-- `CounterInstruction` from `src/instruction.rs`. The `u64` payload is a
`Nat`; `unpack` only ever constructs values below `2 ^ 64`. -/
inductive CounterInstruction where
  | initializeCounter (initial_value : Nat)
  | incrementCounter
deriving DecidableEq, Repr

/-- `CounterInstruction::unpack` from `src/instruction.rs`: `split_first` on
the input (empty input → `InvalidInstructionData`), then match on the
discriminant byte: `0` needs exactly 8 remaining bytes read little-endian
(`rest.try_into()` fails otherwise → `InvalidInstructionData`), `1` ignores
the rest, anything else → `InvalidInstructionData`. -/
def CounterInstruction.unpack (input : List Nat) : Except ProgramError CounterInstruction :=
  match input with
  | [] => Except.error ProgramError.invalidInstructionData
  | variant :: rest =>
    if variant = 0 then
      if rest.length = 8 then
        Except.ok (CounterInstruction.initializeCounter (leValue rest))
      else Except.error ProgramError.invalidInstructionData
    else if variant = 1 then Except.ok CounterInstruction.incrementCounter
    else Except.error ProgramError.invalidInstructionData

/-- `CounterAccount` from `src/state.rs`: a single borsh-serialized `u64`. -/
structure CounterAccount where
  count : Nat
deriving DecidableEq, Repr

/-- borsh `CounterAccount::try_from_slice` (the account-state `read`): borsh
deserializes the `u64` from the first 8 bytes (failing if fewer are present)
and `try_from_slice` additionally fails when bytes remain unconsumed, so it
succeeds exactly on regions of length 8. Both failures are `std::io::Error`s
and surface as `ProgramError::BorshIoError`. -/
def CounterAccount.try_from_slice (data : List Nat) : Except ProgramError CounterAccount :=
  if data.length = 8 then Except.ok ⟨leValue data⟩
  else Except.error ProgramError.borshIoError

/-- borsh serialization of a `CounterAccount` (the account-state `write`):
exactly 8 little-endian bytes. -/
def CounterAccount.serialize (s : CounterAccount) : List Nat :=
  leBytes s.count 8

/-- `counter_data.serialize(&mut &mut data[..])`: borsh writes the 8-byte
encoding through the `io::Write` impl of a mutable byte slice, overwriting the
first 8 bytes and leaving any trailing bytes; it fails with an `io::Error`
(surfacing as `BorshIoError`) when the region is shorter than 8 bytes. -/
def serialize_into (s : CounterAccount) (data : List Nat) : Except ProgramError (List Nat) :=
  if 8 ≤ data.length then Except.ok (s.serialize ++ data.drop 8)
  else Except.error ProgramError.borshIoError

/-- `u64::checked_add` on in-range values: `none` exactly when the sum does
not fit in 64 bits. -/
def checked_add_u64 (a b : Nat) : Option Nat :=
  if a + b < 2 ^ 64 then some (a + b) else none

/-- `solana_program::account_info::AccountInfo`, restricted to the fields this
program reads: address identity, owner program identity, signer flag, and the
mutable data region. Identities are opaque `Nat`s. -/
structure AccountInfo where
  key : Nat
  owner : Nat
  is_signer : Bool
  data : List Nat
deriving DecidableEq, Repr, Inhabited

/-- `process_increment_counter` from `src/processor.rs`:
`next_account_info` takes the first account (`NotEnoughAccountKeys` if the
list is empty), the owner check rejects with `IncorrectProgramId` when the
account's owner differs from `program_id`, the stored region is decoded with
`CounterAccount::try_from_slice`, the count is bumped with `checked_add(1)`
(`InvalidAccountData` on overflow), and only then is the updated state
serialized back into the region. On success the updated account list is
returned; on error nothing has been written. -/
def process_increment_counter (program_id : Nat) (accounts : List AccountInfo) :
    Except ProgramError (List AccountInfo) :=
  match accounts with
  | [] => Except.error ProgramError.notEnoughAccountKeys
  | counter_account :: rest =>
    if counter_account.owner ≠ program_id then
      Except.error ProgramError.incorrectProgramId
    else
      match CounterAccount.try_from_slice counter_account.data with
      | Except.error e => Except.error e
      | Except.ok counter_data =>
        match checked_add_u64 counter_data.count 1 with
        | none => Except.error ProgramError.invalidAccountData
        | some newCount =>
          match serialize_into ⟨newCount⟩ counter_account.data with
          | Except.error e => Except.error e
          | Except.ok newData =>
            Except.ok ({ counter_account with data := newData } :: rest)

/-- Modelled from the spec: the external account-creation service (spec §4.3,
§6), reached in the source through `invoke(&system_instruction::create_account
(payer.key, counter.key, lamports, 8, program_id), ...)`. The system program
is not part of this repository; per its interface both the funder and the new
account must have signed, and on success the new account holds a zero-filled
region of `space` bytes owned by `program_id`. Lamport amounts are host
accounting outside the embedding. -/
def invoke_create_account (program_id : Nat) (funder target : AccountInfo)
    (space : Nat) : Except ProgramError AccountInfo :=
  if funder.is_signer && target.is_signer then
    Except.ok { target with owner := program_id, data := List.replicate space 0 }
  else Except.error ProgramError.missingRequiredSignature

/-- `process_initialize_counter` from `src/processor.rs`: three
`next_account_info` calls take `counter_account`, `payer_account` and
`system_program` in order (`NotEnoughAccountKeys` if the list is shorter),
the create-account sub-call allocates an 8-byte region
(`account_space = 8`) owned by `program_id`, and
`CounterAccount { count: initial_value }` is serialized into the fresh
region. -/
def process_initialize_counter (program_id : Nat) (accounts : List AccountInfo)
    (initial_value : Nat) : Except ProgramError (List AccountInfo) :=
  match accounts with
  | counter_account :: payer_account :: system_program :: rest =>
    match invoke_create_account program_id payer_account counter_account 8 with
    | Except.error e => Except.error e
    | Except.ok created =>
      match serialize_into ⟨initial_value⟩ created.data with
      | Except.error e => Except.error e
      | Except.ok newData =>
        Except.ok ({ created with data := newData } :: payer_account ::
          system_program :: rest)
  | _ => Except.error ProgramError.notEnoughAccountKeys

/-- `process_instruction` from `src/processor.rs`: decode, then dispatch. -/
def process_instruction (program_id : Nat) (accounts : List AccountInfo)
    (instruction_data : List Nat) : Except ProgramError (List AccountInfo) :=
  match CounterInstruction.unpack instruction_data with
  | Except.error e => Except.error e
  | Except.ok (CounterInstruction.initializeCounter v) =>
      process_initialize_counter program_id accounts v
  | Except.ok CounterInstruction.incrementCounter =>
      process_increment_counter program_id accounts

/-- Durable state after one increment call: the host's all-or-nothing effect
visibility keeps the accounts unchanged when the call errors (and the source
performs its only write strictly after the last check). -/
def incrementOnce (program_id : Nat) (accounts : List AccountInfo) : List AccountInfo :=
  match process_increment_counter program_id accounts with
  | Except.ok accs => accs
  | Except.error _ => accounts

/-- The durable state after `n` repeated increment calls. -/
def incrementN (program_id : Nat) (accounts : List AccountInfo) : Nat → List AccountInfo
  | 0 => accounts
  | n + 1 => incrementOnce program_id (incrementN program_id accounts n)

/-- A counter account owned by `program_id` whose 8-byte region stores `v`. -/
def mkCounterAcct (program_id key v : Nat) : AccountInfo :=
  { key := key, owner := program_id, is_signer := false, data := leBytes v 8 }

theorem try_from_slice_ok (data : List Nat) (h : data.length = 8) :
    CounterAccount.try_from_slice data = Except.ok ⟨leValue data⟩ := by
  simp [CounterAccount.try_from_slice, h]

theorem try_from_slice_err (data : List Nat) (h : data.length ≠ 8) :
    CounterAccount.try_from_slice data = Except.error ProgramError.borshIoError := by
  simp [CounterAccount.try_from_slice, h]

theorem leValue_lt_u64 (data : List Nat) (h : data.length = 8) :
    leValue data < 2 ^ 64 := by
  have hv := leValue_lt data
  rwa [h, pow256_eight] at hv

theorem drop_eight (data : List Nat) (h : data.length = 8) : data.drop 8 = [] :=
  List.drop_eq_nil_of_le (by omega)

theorem increment_ok (pid : Nat) (acct : AccountInfo) (rest : List AccountInfo)
    (hown : acct.owner = pid) (hlen : acct.data.length = 8)
    (hlt : leValue acct.data + 1 < 2 ^ 64) :
    process_increment_counter pid (acct :: rest) =
      Except.ok ({ acct with data := leBytes (leValue acct.data + 1) 8 } :: rest) := by
  have hdrop : acct.data.drop 8 = [] := drop_eight acct.data hlen
  have hadd : checked_add_u64 (leValue acct.data) 1 = some (leValue acct.data + 1) := by
    unfold checked_add_u64
    rw [if_pos hlt]
  simp [process_increment_counter, hown, try_from_slice_ok acct.data hlen,
    hadd, serialize_into, hlen, CounterAccount.serialize, hdrop]

theorem increment_overflow_eq (pid : Nat) (acct : AccountInfo) (rest : List AccountInfo)
    (hown : acct.owner = pid) (hlen : acct.data.length = 8)
    (hmax : leValue acct.data = 2 ^ 64 - 1) :
    process_increment_counter pid (acct :: rest) =
      Except.error ProgramError.invalidAccountData := by
  have hadd : checked_add_u64 (leValue acct.data) 1 = none := by
    unfold checked_add_u64
    rw [if_neg]
    omega
  simp [process_increment_counter, hown, try_from_slice_ok acct.data hlen, hadd]

theorem mkCounterAcct_data_length (pid key v : Nat) :
    (mkCounterAcct pid key v).data.length = 8 := by
  simp [mkCounterAcct, leBytes_length]

theorem mkCounterAcct_leValue (pid key v : Nat) (hv : v < 2 ^ 64) :
    leValue (mkCounterAcct pid key v).data = v := by
  show leValue (leBytes v 8) = v
  rw [leValue_leBytes, pow256_eight, Nat.mod_eq_of_lt hv]

theorem increment_step (pid key v : Nat) (hv : v < 2 ^ 64) :
    process_increment_counter pid [mkCounterAcct pid key v] =
      (if v + 1 < 2 ^ 64 then Except.ok [mkCounterAcct pid key (v + 1)]
       else Except.error ProgramError.invalidAccountData) := by
  by_cases h : v + 1 < 2 ^ 64
  · rw [if_pos h]
    have hok := increment_ok pid (mkCounterAcct pid key v) []
      (by simp [mkCounterAcct]) (mkCounterAcct_data_length pid key v)
      (by rw [mkCounterAcct_leValue pid key v hv]; exact h)
    rw [mkCounterAcct_leValue pid key v hv] at hok
    simpa [mkCounterAcct] using hok
  · rw [if_neg h]
    exact increment_overflow_eq pid (mkCounterAcct pid key v) []
      (by simp [mkCounterAcct]) (mkCounterAcct_data_length pid key v)
      (by rw [mkCounterAcct_leValue pid key v hv]; omega)

theorem incrementN_closed (pid key : Nat) (n : Nat) :
    incrementN pid [mkCounterAcct pid key 0] n =
      [mkCounterAcct pid key (min n (2 ^ 64 - 1))] := by
  induction n with
  | zero => simp [incrementN]
  | succ n ih =>
      have hv : min n (2 ^ 64 - 1) < 2 ^ 64 := by omega
      rw [incrementN, ih, incrementOnce, increment_step pid key _ hv]
      by_cases h : min n (2 ^ 64 - 1) + 1 < 2 ^ 64
      · rw [if_pos h]
        have hm : min (n + 1) (2 ^ 64 - 1) = min n (2 ^ 64 - 1) + 1 := by omega
        rw [hm]
      · rw [if_neg h]
        have hm : min (n + 1) (2 ^ 64 - 1) = min n (2 ^ 64 - 1) := by omega
        rw [hm]

theorem initialize_ok (pid v : Nat) (t f svc : AccountInfo) (rest : List AccountInfo)
    (hf : f.is_signer = true) (ht : t.is_signer = true) :
    process_initialize_counter pid (t :: f :: svc :: rest) v =
      Except.ok ({ t with owner := pid, data := leBytes v 8 } :: f :: svc :: rest) := by
  simp [process_initialize_counter, invoke_create_account, hf, ht, serialize_into,
    CounterAccount.serialize]

theorem initialize_no_signer (pid v : Nat) (t f svc : AccountInfo)
    (rest : List AccountInfo) (h : (f.is_signer && t.is_signer) = false) :
    process_initialize_counter pid (t :: f :: svc :: rest) v =
      Except.error ProgramError.missingRequiredSignature := by
  simp [process_initialize_counter, invoke_create_account, h]

/-- C1: `Increment` against a target account whose owner identity differs from
the executing program identity fails with `NotOwner`
(`ProgramError::IncorrectProgramId` in the source) and the target account's
data region is not mutated. -/
theorem C1_increment_not_owner (pid : Nat) (acct : AccountInfo)
    (rest : List AccountInfo) (h : acct.owner ≠ pid) :
    process_increment_counter pid (acct :: rest) =
      Except.error ProgramError.incorrectProgramId ∧
    incrementOnce pid (acct :: rest) = acct :: rest := by
  have herr : process_increment_counter pid (acct :: rest) =
      Except.error ProgramError.incorrectProgramId := by
    simp [process_increment_counter, h]
  exact ⟨herr, by simp [incrementOnce, herr]⟩

theorem C1_witness :
    process_increment_counter 2 [⟨1, 3, false, List.replicate 8 0⟩] =
      Except.error ProgramError.incorrectProgramId :=
  (C1_increment_not_owner 2 ⟨1, 3, false, List.replicate 8 0⟩ [] (by decide)).1

/-- C2: `Increment` on an owned account whose stored 8-byte region holds the
maximum u64 value fails with `Overflow` (`ProgramError::InvalidAccountData`
in the source, from `checked_add(1)` returning `None`) and the stored bytes
are left exactly unchanged — the write-back is never reached. -/
theorem C2_increment_overflow (pid : Nat) (acct : AccountInfo)
    (rest : List AccountInfo) (hown : acct.owner = pid)
    (hlen : acct.data.length = 8) (hmax : leValue acct.data = 2 ^ 64 - 1) :
    process_increment_counter pid (acct :: rest) =
      Except.error ProgramError.invalidAccountData ∧
    incrementOnce pid (acct :: rest) = acct :: rest := by
  have herr := increment_overflow_eq pid acct rest hown hlen hmax
  exact ⟨herr, by simp [incrementOnce, herr]⟩

theorem C2_witness :
    process_increment_counter 5 [⟨9, 5, false, List.replicate 8 255⟩] =
      Except.error ProgramError.invalidAccountData :=
  (C2_increment_overflow 5 ⟨9, 5, false, List.replicate 8 255⟩ [] rfl
    (by decide) (by decide)).1

/-- C3 as stated is false at `n = 2 ^ 64`: after `2 ^ 64` repeated increment
calls starting from a stored 0, the stored value is `2 ^ 64 - 1` (the call at
the maximum fails with `Overflow` and leaves the bytes in place), not
`2 ^ 64`. -/
theorem C3_counterexample :
    leValue ((incrementN 7 [mkCounterAcct 7 1 0] (2 ^ 64)).headI.data) =
      2 ^ 64 - 1 ∧ (2 ^ 64 - 1 : Nat) ≠ 2 ^ 64 := by
  constructor
  · rw [incrementN_closed]
    have hm : min (2 ^ 64) (2 ^ 64 - 1) = 2 ^ 64 - 1 := by omega
    rw [hm]
    show leValue (mkCounterAcct 7 1 (2 ^ 64 - 1)).data = 2 ^ 64 - 1
    exact mkCounterAcct_leValue 7 1 (2 ^ 64 - 1) (by omega)
  · omega

/-- C3 amended: one increment call on an owned account storing
`v < 2 ^ 64 - 1` succeeds and stores `v + 1`, and repeating the call `n`
times from a stored 0 leaves the stored value equal to `n` for every
`n ≤ 2 ^ 64 - 1` (beyond that the counter stays at the maximum). -/
theorem C3_amended :
    (∀ (pid : Nat) (acct : AccountInfo) (rest : List AccountInfo) (v : Nat),
      acct.owner = pid → acct.data.length = 8 → leValue acct.data = v →
      v < 2 ^ 64 - 1 →
      process_increment_counter pid (acct :: rest) =
        Except.ok ({ acct with data := leBytes (v + 1) 8 } :: rest)) ∧
    (∀ (pid key n : Nat), n ≤ 2 ^ 64 - 1 →
      incrementN pid [mkCounterAcct pid key 0] n = [mkCounterAcct pid key n]) := by
  constructor
  · intro pid acct rest v hown hlen hv hlt
    have h := increment_ok pid acct rest hown hlen (by omega)
    rw [hv] at h
    exact h
  · intro pid key n hn
    rw [incrementN_closed]
    have hm : min n (2 ^ 64 - 1) = n := by omega
    rw [hm]

theorem C3_witness :
    process_increment_counter 3 [⟨2, 3, false, [41, 0, 0, 0, 0, 0, 0, 0]⟩] =
      Except.ok [⟨2, 3, false, [42, 0, 0, 0, 0, 0, 0, 0]⟩] := by
  have h := C3_amended.1 3 ⟨2, 3, false, [41, 0, 0, 0, 0, 0, 0, 0]⟩ [] 41 rfl
    (by decide) (by decide) (by decide)
  rw [h]
  rfl

/-- C4: with discriminant byte 0, `unpack` succeeds exactly on total length 9,
returning `Initialize` with the little-endian u64 value of bytes 1..9; any
other length with a leading 0 fails with `Malformed`
(`ProgramError::InvalidInstructionData` in the source, from
`rest.try_into()`). -/
theorem C4_unpack_discriminant_zero :
    (∀ rest : List Nat, rest.length = 8 →
      CounterInstruction.unpack (0 :: rest) =
        Except.ok (CounterInstruction.initializeCounter (leValue rest))) ∧
    (∀ input : List Nat, input.head? = some 0 → input.length ≠ 9 →
      CounterInstruction.unpack input =
        Except.error ProgramError.invalidInstructionData) := by
  constructor
  · intro rest h
    simp [CounterInstruction.unpack, h]
  · intro input h0 hlen
    match input with
    | [] => simp at h0
    | b :: rest =>
        have hb : b = 0 := by simpa using h0
        subst hb
        have hr : rest.length ≠ 8 := by
          simp only [List.length_cons] at hlen
          omega
        simp [CounterInstruction.unpack, hr]

theorem C4_witness :
    CounterInstruction.unpack [0, 2, 0, 0, 0, 0, 0, 0, 0] =
      Except.ok (CounterInstruction.initializeCounter 2) := by
  have h := C4_unpack_discriminant_zero.1 [2, 0, 0, 0, 0, 0, 0, 0] (by decide)
  rw [h]
  rfl

/-- C5: the account-state codec round-trips — decoding an 8-byte region and
re-encoding reproduces the region's first 8 bytes exactly, and decoding the
encoding of any `CounterAccount` (count in u64 range) yields the same
state. -/
theorem C5_roundtrip :
    (∀ bytes : List Nat, bytes.length = 8 → (∀ b ∈ bytes, b < 256) →
      (CounterAccount.try_from_slice bytes).map CounterAccount.serialize =
        Except.ok (bytes.take 8)) ∧
    (∀ s : CounterAccount, s.count < 2 ^ 64 →
      CounterAccount.try_from_slice s.serialize = Except.ok s) := by
  constructor
  · intro bytes hlen hvalid
    rw [try_from_slice_ok bytes hlen]
    have h8 : leBytes (leValue bytes) 8 = bytes := by
      have h := leBytes_leValue bytes hvalid
      rwa [hlen] at h
    have htake : bytes.take 8 = bytes := by
      rw [← hlen]
      exact List.take_length bytes
    simp [Except.map, CounterAccount.serialize, h8, htake]
  · intro s hs
    have hlen : (CounterAccount.serialize s).length = 8 := leBytes_length _ _
    rw [try_from_slice_ok _ hlen]
    have hv : leValue (CounterAccount.serialize s) = s.count := by
      show leValue (leBytes s.count 8) = s.count
      rw [leValue_leBytes, pow256_eight, Nat.mod_eq_of_lt hs]
    rw [hv]

theorem C5_witness :
    (CounterAccount.try_from_slice [1, 2, 3, 4, 5, 6, 7, 8]).map
        CounterAccount.serialize = Except.ok [1, 2, 3, 4, 5, 6, 7, 8] ∧
    CounterAccount.try_from_slice (CounterAccount.serialize ⟨300⟩) =
      Except.ok ⟨300⟩ := by
  constructor
  · have h := C5_roundtrip.1 [1, 2, 3, 4, 5, 6, 7, 8] (by decide) (by decide)
    rw [h]
    rfl
  · exact C5_roundtrip.2 ⟨300⟩ (by decide)

/-- C6 as stated is false: the source decodes the stored region with borsh
`try_from_slice`, which rejects unconsumed trailing bytes, so a 9-byte region
(length at least 8) is not tolerated — the read fails on it instead of
ignoring the trailing byte. -/
theorem C6_counterexample :
    CounterAccount.try_from_slice (List.replicate 9 0) =
      Except.error ProgramError.borshIoError := rfl

/-- C6 amended: the account-state read (borsh `try_from_slice`) succeeds
exactly on regions of length 8 — shorter regions fail (the u64 read runs out
of bytes, the spec's `Truncated`) and longer regions also fail (borsh rejects
trailing bytes), both surfacing as `ProgramError::BorshIoError`; the
increment path's decode of the stored region inherits the same strict
length-8 requirement. -/
theorem C6_amended :
    (∀ data : List Nat,
      (∃ s, CounterAccount.try_from_slice data = Except.ok s) ↔
        data.length = 8) ∧
    (∀ (pid : Nat) (acct : AccountInfo) (rest : List AccountInfo),
      acct.owner = pid → acct.data.length ≠ 8 →
      process_increment_counter pid (acct :: rest) =
        Except.error ProgramError.borshIoError) := by
  constructor
  · intro data
    constructor
    · rintro ⟨s, hs⟩
      by_contra h
      rw [try_from_slice_err data h] at hs
      simp at hs
    · intro h
      exact ⟨⟨leValue data⟩, try_from_slice_ok data h⟩
  · intro pid acct rest hown hlen
    simp [process_increment_counter, hown, try_from_slice_err acct.data hlen]

theorem C6_witness :
    process_increment_counter 7 [⟨1, 7, false, [0, 0, 0]⟩] =
      Except.error ProgramError.borshIoError :=
  C6_amended.2 7 ⟨1, 7, false, [0, 0, 0]⟩ [] rfl (by decide)

/-- C7: `Initialize` requires at least three accounts — target, funder and
the account-creation service, in that order — and fails with `MissingAccount`
(`ProgramError::NotEnoughAccountKeys` in the source) whenever the list is
shorter than 3; on success the roles are the first three supplied accounts in
order, and both target and funder carried signatures (enforced by the
account-creation collaborator, which refuses unsigned creation). -/
theorem C7_init_accounts (pid : Nat) (accounts : List AccountInfo) (v : Nat) :
    (accounts.length < 3 →
      process_initialize_counter pid accounts v =
        Except.error ProgramError.notEnoughAccountKeys) ∧
    (∀ t f svc rest out, accounts = t :: f :: svc :: rest →
      process_initialize_counter pid accounts v = Except.ok out →
      t.is_signer = true ∧ f.is_signer = true ∧
      out = { t with owner := pid, data := leBytes v 8 } :: f :: svc :: rest) := by
  constructor
  · intro hlen
    match accounts, hlen with
    | [], _ => rfl
    | [a], _ => rfl
    | [a, b], _ => rfl
    | a :: b :: c :: rest, h =>
        exact absurd h (by simp only [List.length_cons]; omega)
  · rintro t f svc rest out rfl hok
    by_cases hsig : (f.is_signer && t.is_signer) = true
    · obtain ⟨hf, ht⟩ := Bool.and_eq_true_iff.mp hsig
      rw [initialize_ok pid v t f svc rest hf ht] at hok
      refine ⟨ht, hf, ?_⟩
      exact (Except.ok.inj hok).symm
    · rw [initialize_no_signer pid v t f svc rest
        (Bool.not_eq_true _ ▸ Bool.eq_false_iff.mpr hsig)] at hok
      simp at hok

theorem C7_witness :
    process_initialize_counter 4 [] 5 =
      Except.error ProgramError.notEnoughAccountKeys :=
  (C7_init_accounts 4 [] 5).1 (by decide)

/-- C8 as stated is false: the source returns the one value
`ProgramError::InvalidInstructionData` for the empty buffer, for an unknown
discriminant and for a malformed discriminant-0 payload alike — the claimed
failure kinds are the same value, not distinct. -/
theorem C8_counterexample :
    CounterInstruction.unpack [] = CounterInstruction.unpack [2] ∧
    CounterInstruction.unpack [] = CounterInstruction.unpack [0, 0] ∧
    CounterInstruction.unpack [] =
      Except.error ProgramError.invalidInstructionData :=
  ⟨rfl, rfl, rfl⟩

/-- C8 amended: decoding the empty buffer fails, and decoding a buffer whose
first byte is neither 0 nor 1 fails, both with the same
`ProgramError::InvalidInstructionData` that is also used for malformed
discriminant-0 lengths — the source does not distinguish the three kinds;
decode is a pure total function with no side effects. -/
theorem C8_amended :
    CounterInstruction.unpack [] =
      Except.error ProgramError.invalidInstructionData ∧
    (∀ (b : Nat) (rest : List Nat), b ≠ 0 → b ≠ 1 →
      CounterInstruction.unpack (b :: rest) =
        Except.error ProgramError.invalidInstructionData) := by
  refine ⟨rfl, ?_⟩
  intro b rest h0 h1
  simp [CounterInstruction.unpack, h0, h1]

theorem C8_witness :
    CounterInstruction.unpack [2] =
      Except.error ProgramError.invalidInstructionData :=
  C8_amended.2 2 [] (by decide) (by decide)

/-- C9: an increment call (`data = [1]`) against a program-owned account whose
8-byte region is all zero bytes decodes the stored state to `count = 0`,
succeeds, and stores 1 — the codec has no validity tag, so the uninitialized
zero region reads as a counter at 0. -/
theorem C9_uninitialized_increment (pid : Nat) (acct : AccountInfo)
    (rest : List AccountInfo) (hown : acct.owner = pid)
    (hdata : acct.data = List.replicate 8 0) :
    CounterAccount.try_from_slice acct.data = Except.ok ⟨0⟩ ∧
    process_instruction pid (acct :: rest) [1] =
      Except.ok ({ acct with data := leBytes 1 8 } :: rest) ∧
    leValue (leBytes 1 8) = 1 := by
  have hlen : acct.data.length = 8 := by rw [hdata]; rfl
  have hval : leValue acct.data = 0 := by rw [hdata]; rfl
  refine ⟨?_, ?_, rfl⟩
  · rw [try_from_slice_ok acct.data hlen, hval]
  · show process_increment_counter pid (acct :: rest) =
      Except.ok ({ acct with data := leBytes 1 8 } :: rest)
    have h := increment_ok pid acct rest hown hlen (by rw [hval]; omega)
    rw [hval] at h
    simpa using h

theorem C9_witness :
    process_instruction 6 [⟨2, 6, false, [0, 0, 0, 0, 0, 0, 0, 0]⟩] [1] =
      Except.ok [⟨2, 6, false, [1, 0, 0, 0, 0, 0, 0, 0]⟩] := by
  have h := (C9_uninitialized_increment 6 ⟨2, 6, false, [0, 0, 0, 0, 0, 0, 0, 0]⟩
    [] rfl (by decide)).2.1
  rw [h]
  rfl

/-- C10: instruction decoding is total — for every input byte list `unpack`
returns either a decoded instruction or an error; in the source the two
fallible steps (`split_first`, `rest.try_into()`) are handled explicitly and
every other operation is total, so no input panics. -/
theorem C10_unpack_total (input : List Nat) :
    (∃ op, CounterInstruction.unpack input = Except.ok op) ∨
    CounterInstruction.unpack input =
      Except.error ProgramError.invalidInstructionData := by
  match input with
  | [] => exact Or.inr rfl
  | b :: rest =>
      by_cases hb0 : b = 0
      · subst hb0
        by_cases hl : rest.length = 8
        · exact Or.inl ⟨CounterInstruction.initializeCounter (leValue rest),
            by simp [CounterInstruction.unpack, hl]⟩
        · exact Or.inr (by simp [CounterInstruction.unpack, hl])
      · by_cases hb1 : b = 1
        · subst hb1
          exact Or.inl ⟨CounterInstruction.incrementCounter, rfl⟩
        · exact Or.inr (by simp [CounterInstruction.unpack, hb0, hb1])

end SimpleCounter
